import Mathlib

/-!
# BuildBloatBuster — verification of the scanner / size-aggregator / quarantine core

Shallow embedding of the Go sources of `github.com/yehia2amer/BuildBloatBuster`:

* `internal/scan`  — `Scanner.scanPath`, `isPathExcluded`, `isVersionControlDir`
* `internal/size`  — `Calculator.CalculateSizes`, `calculateDirectorySize`
* `internal/erase` — `Eraser.quarantineCandidates` (destination naming), `Metadata`
* `cmd/restore.go` — `runRestore` (rename back + sidecar removal), `listQuarantinedItems`

Machine integers (`int64`, sizes, times) are modelled as `Int`; none of the
verified claims involves overflow.  Filesystem trees are explicit inductive
values; the bounded worker pool of the size aggregator is modelled by passing
the completion order of the jobs (a list of indices pulled from the shared
channel) as an explicit parameter.
-/

namespace BBB

/-- `scan.Candidate`: a directory subtree identified as a deletion target.
Mirrors the Go struct `{Path string; SizeBytes int64; Reason string;
NewestMTime time.Time}`; the mtime is modelled as an integer timestamp. -/
structure Candidate where
  path : String
  sizeBytes : Int
  reason : String
  newestMTime : Int
deriving Repr, DecidableEq, Inhabited

/-- `erase.Metadata`: the JSON sidecar recording a quarantined item.
Mirrors `{OriginalPath, QuarantinePath string; Timestamp time.Time;
SizeBytes int64}`; the timestamp is modelled as an integer. -/
structure Metadata where
  originalPath : String
  quarantinePath : String
  timestamp : Int
  sizeBytes : Int
deriving Repr, DecidableEq, Inhabited

/-! ## String helpers

Go's `strings.HasPrefix` / `strings.HasSuffix` / `filepath.Base`, as executable
functions on the character lists underlying `String`. -/

/-- `listBeginsWith pre l` decides whether `pre` is an initial segment of `l`. -/
def listBeginsWith : List Char → List Char → Bool
  | [], _ => true
  | _ :: _, [] => false
  | a :: as, b :: bs => a = b && listBeginsWith as bs

/-- `strings.HasPrefix(s, pre)`. -/
def strStartsWith (s pre : String) : Bool :=
  listBeginsWith pre.data s.data

/-- `strings.HasSuffix(s, suf)`. -/
def strEndsWith (s suf : String) : Bool :=
  listBeginsWith suf.data.reverse s.data.reverse

/-- Characters of the last path component, computed on the reversed
character list: take characters up to the first separator. -/
def baseNameAux : List Char → List Char
  | [] => []
  | c :: cs => if c = '/' then [] else c :: baseNameAux cs

/-- `filepath.Base` on a clean slash-separated path: the part after the last
separator. -/
def baseName (s : String) : String :=
  ⟨(baseNameAux s.data.reverse).reverse⟩

theorem listBeginsWith_iff (pre l : List Char) :
    listBeginsWith pre l = true ↔ ∃ t, l = pre ++ t := by
  induction pre generalizing l with
  | nil => simp [listBeginsWith]
  | cons a as ih =>
    cases l with
    | nil =>
      simp only [listBeginsWith]
      constructor
      · intro h; cases h
      · rintro ⟨t, ht⟩; cases ht
    | cons b bs =>
      simp only [listBeginsWith, Bool.and_eq_true, decide_eq_true_eq, ih]
      constructor
      · rintro ⟨rfl, t, rfl⟩; exact ⟨t, rfl⟩
      · rintro ⟨t, ht⟩
        injection ht with h1 h2
        exact ⟨h1.symm, t, h2⟩

theorem strStartsWith_iff (s pre : String) :
    strStartsWith s pre = true ↔ ∃ t : String, s = pre ++ t := by
  unfold strStartsWith
  rw [listBeginsWith_iff]
  constructor
  · rintro ⟨t, ht⟩
    refine ⟨⟨t⟩, ?_⟩
    apply String.ext
    rw [String.data_append]
    exact ht
  · rintro ⟨t, rfl⟩
    exact ⟨t.data, String.data_append pre t⟩

theorem baseNameAux_append (l₁ l₂ : List Char) (h : '/' ∉ l₁) :
    baseNameAux (l₁ ++ '/' :: l₂) = l₁ := by
  induction l₁ with
  | nil => simp [baseNameAux]
  | cons c cs ih =>
    have hc : ¬c = '/' := fun hc => h (hc ▸ List.mem_cons_self _ _)
    have hcs : '/' ∉ cs := fun hm => h (List.mem_cons_of_mem _ hm)
    simp [baseNameAux, hc, ih hcs]

/-- The basename of `parent ++ "/" ++ name` is `name` whenever `name` contains
no separator (true of every directory-entry name the walker produces). -/
theorem baseName_append (parent name : String) (h : '/' ∉ name.data) :
    baseName (parent ++ "/" ++ name) = name := by
  unfold baseName
  apply String.ext
  show (baseNameAux ((parent ++ "/" ++ name).data).reverse).reverse = name.data
  rw [String.data_append, String.data_append]
  show (baseNameAux ((parent.data ++ ['/']) ++ name.data).reverse).reverse = name.data
  rw [List.reverse_append, List.reverse_append]
  simp only [List.reverse_cons, List.reverse_nil, List.nil_append, List.cons_append]
  rw [show name.data.reverse ++ '/' :: parent.data.reverse
        = name.data.reverse ++ '/' :: parent.data.reverse from rfl]
  rw [baseNameAux_append _ _ (by simpa using h)]
  exact List.reverse_reverse _

/-! ## `scan.isPathExcluded` and `scan.isVersionControlDir` -/

/-- `Scanner.isVersionControlDir` (scanner.go): membership in the fixed set
`{.git, .svn, .hg, .bzr}`. -/
def isVersionControlDir (dirName : String) : Bool :=
  dirName = ".git" || dirName = ".svn" || dirName = ".hg" || dirName = ".bzr"

/-- `Scanner.isPathExcluded` (scanner.go): the path is a key of the
exclude-path set, or has `excludePath + separator` as a raw string prefix.
The Go map of exclude paths is modelled as the list of its keys; the path
separator is `/`. -/
def isPathExcluded (excludePaths : List String) (path : String) : Bool :=
  excludePaths.contains path ||
    excludePaths.any (fun e => strStartsWith path (e ++ "/"))

/-! ## `erase.quarantineCandidates` — destination naming

For each candidate, `quarantineCandidates` computes
`destName := fmt.Sprintf("%s-%s", timestamp, filepath.Base(candidate.Path))`
where `timestamp := time.Now().Format("20060102-150405")` — a second-resolution
clock string.  The formatted clock value is passed in as `timestamp`. -/

/-- The quarantine destination entry name built by `quarantineCandidates`:
`timestamp + "-" + basename` with no further disambiguator. -/
def quarantineDestName (timestamp : String) (c : Candidate) : String :=
  timestamp ++ "-" ++ baseName c.path

/-! ## Theorems for C8 (exclude-path boundary semantics) -/

/-- Claim C8: `isPathExcluded` returns true iff the path equals a stored exclude
entry or extends that entry past a separator (`entry ++ "/" ++ rest`); in
particular a path that merely shares a textual prefix with an entry without a
separator boundary (`/a/b` vs `/a/bc`) is not excluded. -/
theorem isPathExcluded_boundary_semantics :
    (∀ (eps : List String) (p : String),
        isPathExcluded eps p = true ↔
          p ∈ eps ∨ ∃ e ∈ eps, ∃ t : String, p = e ++ "/" ++ t) ∧
    isPathExcluded ["/a/b"] "/a/bc" = false := by
  constructor
  · intro eps p
    unfold isPathExcluded
    have hcontains : eps.contains p = true ↔ p ∈ eps := by
      simp [List.contains_iff_exists_mem_beq, eq_comm]
    simp only [Bool.or_eq_true, hcontains, List.any_eq_true]
    constructor
    · rintro (hmem | ⟨e, he, hpre⟩)
      · exact Or.inl hmem
      · rcases (strStartsWith_iff p (e ++ "/")).mp hpre with ⟨t, ht⟩
        exact Or.inr ⟨e, he, t, ht⟩
    · rintro (hmem | ⟨e, he, t, ht⟩)
      · exact Or.inl hmem
      · exact Or.inr ⟨e, he, (strStartsWith_iff p (e ++ "/")).mpr ⟨t, ht⟩⟩
  · decide

/-! ## Theorems for C1 (quarantine destination naming) -/

/-- Claim C1 counterexample: two distinct candidates sharing the basename
`node_modules`, quarantined under the same second-resolution timestamp,
receive the *same* destination name — the scheme is bare
`timestamp-basename`, with no sequence counter or higher-resolution clock, so
quarantine entry names do collide. -/
theorem quarantineDestName_collides :
    quarantineDestName "20260101-120000"
        ⟨"/work/appA/node_modules", 0, "matches include pattern 'node_modules'", 0⟩ =
      quarantineDestName "20260101-120000"
        ⟨"/work/appB/node_modules", 0, "matches include pattern 'node_modules'", 0⟩ ∧
    ("/work/appA/node_modules" : String) ≠ "/work/appB/node_modules" := by
  exact ⟨rfl, by decide⟩

/-- Claim C1 amended: the destination name is exactly `timestamp ++ "-" ++ basename`
with no disambiguator, so any two candidates with equal basenames quarantined
within the same timestamp resolution receive identical destination names. -/
theorem quarantineDestName_eq_of_same_base (ts : String) (c₁ c₂ : Candidate)
    (h : baseName c₁.path = baseName c₂.path) :
    quarantineDestName ts c₁ = ts ++ "-" ++ baseName c₁.path ∧
    quarantineDestName ts c₁ = quarantineDestName ts c₂ := by
  refine ⟨rfl, ?_⟩
  unfold quarantineDestName
  rw [h]

/-- Witness for `quarantineDestName_eq_of_same_base` at concrete inputs. -/
theorem quarantineDestName_eq_of_same_base_witness :
    quarantineDestName "20260101-120000" ⟨"/x/dist", 0, "r", 0⟩ =
        "20260101-120000" ++ "-" ++ baseName "/x/dist" ∧
    quarantineDestName "20260101-120000" ⟨"/x/dist", 0, "r", 0⟩ =
      quarantineDestName "20260101-120000" ⟨"/y/dist", 5, "s", 7⟩ :=
  quarantineDestName_eq_of_same_base "20260101-120000"
    ⟨"/x/dist", 0, "r", 0⟩ ⟨"/y/dist", 5, "s", 7⟩ (by decide)

/-! ## `cmd/restore.go` — `runRestore` and `listQuarantinedItems`

`runRestore` performs `os.Rename(QuarantinePath, OriginalPath)` with no prior
existence check of `OriginalPath`, then removes the sidecar
`QuarantinePath + ".meta.json"` (removal failure is logged, non-fatal). -/

/-- What occupies a filesystem path, as far as `os.Rename` of a directory
source is concerned: a regular file, or a directory (empty or non-empty). -/
inductive FsEntry
  | file
  | dir (nonEmpty : Bool)
deriving Repr, DecidableEq, Inhabited

/-- A filesystem fragment: a finite association from absolute paths to the
entry occupying each path. -/
abbrev Fs := List (String × FsEntry)

/-- First entry stored at path `p`, if any. -/
def fsLookup (fs : Fs) (p : String) : Option FsEntry :=
  match fs with
  | [] => none
  | (q, e) :: rest => if q = p then some e else fsLookup rest p

/-- Drop every entry at path `p`. -/
def fsRemove (fs : Fs) (p : String) : Fs :=
  fs.filter (fun x => !(x.1 = p : Bool))

/-- Store entry `v` at path `p`, replacing anything previously there. -/
def fsSet (fs : Fs) (p : String) (v : FsEntry) : Fs :=
  (p, v) :: fsRemove fs p

/-- Host-OS semantics of `os.Rename(src, dst)` on Linux when `src` is a
directory (POSIX `rename(2)`): fails if `src` is absent; succeeds when `dst`
is absent; silently replaces `dst` when `dst` is an *empty* directory; fails
(`ENOTEMPTY`/`ENOTDIR`) when `dst` is a non-empty directory or a file.
`none` models the error return, in which case the filesystem is unchanged. -/
def osRenameDir (fs : Fs) (src dst : String) : Option Fs :=
  match fsLookup fs src with
  | none => none
  | some e =>
    match fsLookup fs dst with
    | none => some (fsSet (fsRemove fs src) dst e)
    | some (.dir false) => some (fsSet (fsRemove fs src) dst e)
    | some _ => none

/-- The restore step of `runRestore` (restore.go) for a selected record:
rename `QuarantinePath` to `OriginalPath`; on rename failure return the error
(filesystem unchanged, flag `false`); on success remove the sidecar
`QuarantinePath + ".meta.json"` (best-effort) and report success. -/
def runRestoreItem (fs : Fs) (m : Metadata) : Fs × Bool :=
  match osRenameDir fs m.quarantinePath m.originalPath with
  | none => (fs, false)
  | some fs' => (fsRemove fs' (m.quarantinePath ++ ".meta.json"), true)

/-- A directory entry of the quarantine root as seen by
`listQuarantinedItems`: its name, whether it is a directory, and the outcome
of reading + JSON-parsing it as a sidecar (`none` = unreadable or
unparsable, skipped with a warning). -/
structure QFile where
  name : String
  isDir : Bool
  parsed : Option Metadata
deriving Repr, DecidableEq, Inhabited

/-- `listQuarantinedItems` (restore.go): scan the quarantine root's entries;
for every non-directory whose name ends in `.meta.json`, read and parse the
sidecar; skip entries that fail to read or parse; collect the records. -/
def listQuarantinedItems (files : List QFile) : List Metadata :=
  files.filterMap (fun f =>
    if !f.isDir && strEndsWith f.name ".meta.json" then f.parsed else none)

/-! ## Theorems for C2 (restore never-overwrite policy) -/

/-- Claim C2 counterexample: a record whose `OriginalPath` is occupied by an empty
directory.  `runRestore` performs no existence check, and the underlying
`rename` silently replaces an empty destination directory: the restore
*succeeds* and the pre-existing entry at `OriginalPath` is overwritten,
contradicting the never-overwrite policy as stated. -/
theorem runRestoreItem_overwrites_empty_dir :
    (fsLookup
        [("/q/20260101-120000-dist", FsEntry.dir true),
         ("/q/20260101-120000-dist.meta.json", FsEntry.file),
         ("/home/u/proj/dist", FsEntry.dir false)]
        "/home/u/proj/dist" = some (FsEntry.dir false)) ∧
    (runRestoreItem
        [("/q/20260101-120000-dist", FsEntry.dir true),
         ("/q/20260101-120000-dist.meta.json", FsEntry.file),
         ("/home/u/proj/dist", FsEntry.dir false)]
        ⟨"/home/u/proj/dist", "/q/20260101-120000-dist", 0, 4096⟩).2 = true ∧
    (fsLookup
        (runRestoreItem
          [("/q/20260101-120000-dist", FsEntry.dir true),
           ("/q/20260101-120000-dist.meta.json", FsEntry.file),
           ("/home/u/proj/dist", FsEntry.dir false)]
          ⟨"/home/u/proj/dist", "/q/20260101-120000-dist", 0, 4096⟩).1
        "/home/u/proj/dist" = some (FsEntry.dir true)) := by
  decide

/-- Claim C2 amended: `runRestore` has no explicit pre-existence check; it fails
without touching the filesystem — the quarantined subtree and its sidecar are
left in place — exactly when `OriginalPath` is occupied by a file or by a
non-empty directory (the `rename` itself fails there); an existing *empty*
directory at `OriginalPath` is instead silently replaced. -/
theorem runRestoreItem_fails_on_occupied (fs : Fs) (m : Metadata) (e : FsEntry)
    (hdst : fsLookup fs m.originalPath = some e)
    (he : e = FsEntry.file ∨ e = FsEntry.dir true) :
    runRestoreItem fs m = (fs, false) := by
  unfold runRestoreItem osRenameDir
  cases hsrc : fsLookup fs m.quarantinePath with
  | none => rfl
  | some esrc =>
    rw [hdst]
    rcases he with rfl | rfl <;> rfl

/-- Witness for `runRestoreItem_fails_on_occupied` at a concrete state: the
original path is occupied by a non-empty directory, the restore fails, and
subtree and sidecar remain in place. -/
theorem runRestoreItem_fails_on_occupied_witness :
    runRestoreItem
        [("/q/20260101-120000-dist", FsEntry.dir true),
         ("/q/20260101-120000-dist.meta.json", FsEntry.file),
         ("/home/u/proj/dist", FsEntry.dir true)]
        ⟨"/home/u/proj/dist", "/q/20260101-120000-dist", 0, 4096⟩ =
      ([("/q/20260101-120000-dist", FsEntry.dir true),
        ("/q/20260101-120000-dist.meta.json", FsEntry.file),
        ("/home/u/proj/dist", FsEntry.dir true)], false) :=
  runRestoreItem_fails_on_occupied _ _ (FsEntry.dir true) (by decide) (Or.inr rfl)

/-! ## Theorems for C3 (stale sidecars in listings) -/

/-- Claim C3 counterexample: a quarantine root holding exactly one sidecar whose
recorded subtree entry (`20260101-120000-dist`) does not exist in the
directory.  `listQuarantinedItems` performs no existence check on
`QuarantinePath`, so the stale sidecar is parsed and the phantom record is
presented. -/
theorem listQuarantinedItems_presents_phantom :
    (listQuarantinedItems
        [⟨"20260101-120000-dist.meta.json", false,
          some ⟨"/home/u/proj/dist", "/q/20260101-120000-dist", 0, 4096⟩⟩] =
      [⟨"/home/u/proj/dist", "/q/20260101-120000-dist", 0, 4096⟩]) ∧
    (∀ f ∈ ([⟨"20260101-120000-dist.meta.json", false,
          some ⟨"/home/u/proj/dist", "/q/20260101-120000-dist", 0, 4096⟩⟩] :
            List QFile),
        ¬ f.name = "20260101-120000-dist") := by
  decide

/-- Claim C3 amended: a record is listed iff some non-directory entry of the
quarantine root named `*.meta.json` reads and parses to it — inclusion
depends only on readability and parsability of the sidecar, never on whether
a subtree still exists at the record's `QuarantinePath`, so stale sidecars
are listed as phantom entries. -/
theorem listQuarantinedItems_mem_iff (files : List QFile) (m : Metadata) :
    m ∈ listQuarantinedItems files ↔
      ∃ f ∈ files, f.isDir = false ∧
        strEndsWith f.name ".meta.json" = true ∧ f.parsed = some m := by
  unfold listQuarantinedItems
  rw [List.mem_filterMap]
  constructor
  · rintro ⟨f, hf, heq⟩
    by_cases hc : (!f.isDir && strEndsWith f.name ".meta.json") = true
    · rw [if_pos hc] at heq
      rcases Bool.and_eq_true _ _ |>.mp hc with ⟨h1, h2⟩
      exact ⟨f, hf, by simpa using h1, h2, heq⟩
    · rw [if_neg hc] at heq
      cases heq
  · rintro ⟨f, hf, h1, h2, h3⟩
    refine ⟨f, hf, ?_⟩
    rw [if_pos (by simp [h1, h2]), h3]

/-! ## `scan.Scanner.scanPath` — the tree walk

`scanPath` resolves the root to an absolute path, returns no candidates if the
root itself is excluded, and otherwise runs `filepath.WalkDir`.  The walk is
modelled as a recursion over an explicit directory tree: each node carries its
entry name, whether `d.Info()` reports a symlink, the error (if any) that
`WalkDir` passes to the callback when visiting it, the mtime recorded from
`d.Info()`, and its child directories.  Plain files are skipped by the
callback (`if !d.IsDir() return nil`), so the tree holds directories only. -/

/-- An error handed to the `WalkDir` callback at a node: a permission error is
pruned locally (`filepath.SkipDir`); any other error aborts the scan of the
root and is surfaced. -/
inductive VisitErr
  | permission
  | other
deriving Repr, DecidableEq

/-- A directory node: entry name, symlink flag, visit error, mtime,
subdirectories. -/
inductive DirTree where
  | node : String → Bool → Option VisitErr → Int → List DirTree → DirTree
deriving Repr

/-- Entry name of a directory node (`d.Name()`). -/
def DirTree.name : DirTree → String
  | .node n _ _ _ _ => n

/-- The scanner configuration fields `scanPath` consults. -/
structure ScanConfig where
  includeNames : List String
  excludeNames : List String
  excludePaths : List String
  maxDepth : Int
  followSymlinks : Bool

/-- The single-quote character, as a one-character string. -/
def squote : String := ⟨['\'']⟩

/-- `fmt.Sprintf("matches include pattern '%s'", dirName)`. -/
def includeReason (dirName : String) : String :=
  "matches include pattern " ++ squote ++ dirName ++ squote

mutual
/-- One `WalkDir` callback visit at a directory node, plus the walk of its
subtree.  `levels` is the number of path components below the scan root; the
Go code's `depth` variable (`strings.Count(relPath, separator)`, with `"."`
special-cased to `0`) equals `levels - 1` truncated at zero.  Rule order is
exactly the callback's: visit error, max depth, excluded path, symlink, VCS
directory, excluded name, included name (classify and prune), else descend. -/
def visitNode (cfg : ScanConfig) : String → Nat → DirTree →
    Except VisitErr (List Candidate)
  | path, levels, .node dirName isSym verr mtime children =>
    match verr with
    | some .permission => .ok []
    | some .other => .error .other
    | none =>
      let depth : Nat := levels - 1
      if 0 < cfg.maxDepth ∧ cfg.maxDepth ≤ (depth : Int) then .ok []
      else if isPathExcluded cfg.excludePaths path then .ok []
      else if !cfg.followSymlinks && isSym then .ok []
      else if isVersionControlDir dirName then .ok []
      else if dirName ∈ cfg.excludeNames then .ok []
      else if dirName ∈ cfg.includeNames then
        .ok [{ path := path, sizeBytes := 0, reason := includeReason dirName,
               newestMTime := mtime }]
      else visitForest cfg path levels children

/-- Continuation of the walk over the children of a node, in directory order;
an error surfaced from any child aborts the whole walk. -/
def visitForest (cfg : ScanConfig) : String → Nat → List DirTree →
    Except VisitErr (List Candidate)
  | _, _, [] => .ok []
  | path, levels, t :: ts => do
    let cs ← visitNode cfg (path ++ "/" ++ t.name) (levels + 1) t
    let rest ← visitForest cfg path levels ts
    .ok (cs ++ rest)
end

/-- `Scanner.scanPath` for one root: skip entirely when the (absolute) root
path is excluded, otherwise walk from the root at depth 0.  An `.error`
result models `scanPath` returning `nil, err`, discarding the partial
candidate list. -/
def scanPathModel (cfg : ScanConfig) (rootPath : String) (t : DirTree) :
    Except VisitErr (List Candidate) :=
  if isPathExcluded cfg.excludePaths rootPath then .ok []
  else visitNode cfg rootPath 0 t

/-- A directory-entry name never contains the path separator. -/
def isCleanName (s : String) : Bool := !s.data.contains '/'

mutual
/-- All entry names in the tree are separator-free. -/
def cleanTree : DirTree → Bool
  | .node n _ _ _ children => isCleanName n && cleanForest children

def cleanForest : List DirTree → Bool
  | [] => true
  | t :: ts => cleanTree t && cleanForest ts
end

theorem visitNode_eq_perm (cfg : ScanConfig) (path : String) (levels : Nat)
    (dirName : String) (isSym : Bool) (mtime : Int) (children : List DirTree) :
    visitNode cfg path levels
        (.node dirName isSym (some .permission) mtime children) = .ok [] := rfl

theorem visitNode_eq_other (cfg : ScanConfig) (path : String) (levels : Nat)
    (dirName : String) (isSym : Bool) (mtime : Int) (children : List DirTree) :
    visitNode cfg path levels
        (.node dirName isSym (some .other) mtime children) = .error .other := rfl

theorem visitNode_eq_none (cfg : ScanConfig) (path : String) (levels : Nat)
    (dirName : String) (isSym : Bool) (mtime : Int) (children : List DirTree) :
    visitNode cfg path levels (.node dirName isSym none mtime children) =
      (if 0 < cfg.maxDepth ∧ cfg.maxDepth ≤ ((levels - 1 : Nat) : Int) then
        .ok []
      else if isPathExcluded cfg.excludePaths path then .ok []
      else if !cfg.followSymlinks && isSym then .ok []
      else if isVersionControlDir dirName then .ok []
      else if dirName ∈ cfg.excludeNames then .ok []
      else if dirName ∈ cfg.includeNames then
        .ok [{ path := path, sizeBytes := 0, reason := includeReason dirName,
               newestMTime := mtime }]
      else visitForest cfg path levels children) := rfl

theorem visitForest_eq_nil (cfg : ScanConfig) (path : String) (levels : Nat) :
    visitForest cfg path levels [] = .ok [] := rfl

theorem visitForest_eq_cons (cfg : ScanConfig) (path : String) (levels : Nat)
    (t : DirTree) (ts : List DirTree) :
    visitForest cfg path levels (t :: ts) =
      Except.bind (visitNode cfg (path ++ "/" ++ t.name) (levels + 1) t)
        (fun cs1 => Except.bind (visitForest cfg path levels ts)
          (fun rest1 => Except.ok (cs1 ++ rest1))) := rfl

theorem isCleanName_iff (s : String) : isCleanName s = true ↔ '/' ∉ s.data := by
  unfold isCleanName
  simp [List.contains_iff_exists_mem_beq]

theorem cleanTree_parts (n : String) (sym : Bool) (verr : Option VisitErr)
    (m : Int) (children : List DirTree)
    (h : cleanTree (.node n sym verr m children) = true) :
    isCleanName n = true ∧ cleanForest children = true := by
  unfold cleanTree at h
  exact Bool.and_eq_true _ _ |>.mp h

mutual
/-- Invariant of the walk: every emitted candidate's basename is an include
name that is *not* an exclude name (the exclude-name check precedes the
include-name check in the callback). -/
theorem visitNode_names (cfg : ScanConfig) (path : String) (levels : Nat)
    (t : DirTree) (cs : List Candidate)
    (hclean : cleanTree t = true)
    (hbase : baseName path = t.name)
    (h : visitNode cfg path levels t = .ok cs) :
    ∀ c ∈ cs, baseName c.path ∈ cfg.includeNames ∧
      baseName c.path ∉ cfg.excludeNames := by
  match t with
  | .node dirName isSym (some .permission) mtime children =>
    rw [visitNode_eq_perm] at h
    obtain rfl : ([] : List Candidate) = cs := Except.ok.inj h
    intro c hc
    cases hc
  | .node dirName isSym (some .other) mtime children =>
    rw [visitNode_eq_other] at h
    cases h
  | .node dirName isSym none mtime children =>
    rw [visitNode_eq_none] at h
    split_ifs at h with h1 h2 h3 h4 h5 h6
    · obtain rfl : ([] : List Candidate) = cs := Except.ok.inj h
      intro c hc; cases hc
    · obtain rfl : ([] : List Candidate) = cs := Except.ok.inj h
      intro c hc; cases hc
    · obtain rfl : ([] : List Candidate) = cs := Except.ok.inj h
      intro c hc; cases hc
    · obtain rfl : ([] : List Candidate) = cs := Except.ok.inj h
      intro c hc; cases hc
    · obtain rfl : ([] : List Candidate) = cs := Except.ok.inj h
      intro c hc; cases hc
    · have hcs := Except.ok.inj h
      subst hcs
      intro c hc
      rw [List.mem_singleton] at hc
      subst hc
      refine ⟨?_, ?_⟩
      · show baseName path ∈ cfg.includeNames
        rw [hbase]; exact h6
      · show baseName path ∉ cfg.excludeNames
        rw [hbase]; exact h5
    · exact visitForest_names cfg path levels children cs
        (cleanTree_parts _ _ _ _ _ hclean).2 h

theorem visitForest_names (cfg : ScanConfig) (path : String) (levels : Nat)
    (ts : List DirTree) (cs : List Candidate)
    (hclean : cleanForest ts = true)
    (h : visitForest cfg path levels ts = .ok cs) :
    ∀ c ∈ cs, baseName c.path ∈ cfg.includeNames ∧
      baseName c.path ∉ cfg.excludeNames := by
  match ts with
  | [] =>
    obtain rfl : ([] : List Candidate) = cs := Except.ok.inj h
    intro c hc
    cases hc
  | t :: rest =>
    have hc1 : cleanTree t = true := by
      unfold cleanForest at hclean
      exact (Bool.and_eq_true _ _ |>.mp hclean).1
    have hc2 : cleanForest rest = true := by
      unfold cleanForest at hclean
      exact (Bool.and_eq_true _ _ |>.mp hclean).2
    have h0 : Except.bind (visitNode cfg (path ++ "/" ++ t.name) (levels + 1) t)
        (fun cs1 => Except.bind (visitForest cfg path levels rest)
          (fun rest1 => Except.ok (cs1 ++ rest1))) = Except.ok cs := h
    cases hv : visitNode cfg (path ++ "/" ++ t.name) (levels + 1) t with
    | error e =>
      rw [hv] at h0
      cases h0
    | ok cs₁ =>
      rw [hv] at h0
      cases hw : visitForest cfg path levels rest with
      | error e =>
        rw [hw] at h0
        cases h0
      | ok cs₂ =>
        rw [hw] at h0
        obtain rfl : cs₁ ++ cs₂ = cs := Except.ok.inj h0
        intro c hc
        rcases List.mem_append.mp hc with hmem | hmem
        · have hbase : baseName (path ++ "/" ++ t.name) = t.name :=
            baseName_append path t.name
              ((isCleanName_iff t.name).mp (by
                cases t with
                | node n s v m ch => exact (cleanTree_parts n s v m ch hc1).1))
          exact visitNode_names cfg (path ++ "/" ++ t.name) (levels + 1) t cs₁
            hc1 hbase hv c hmem
        · exact visitForest_names cfg path levels rest cs₂ hc2 hw c hmem
end

/-- Claim C4: if a basename is in `excludeNames`, scanning a root reports no
candidate with that basename, whatever `includeNames` contains: the
exclude-name check strictly precedes the include-name check at every node.
Hypotheses: the tree's entry names are separator-free (as directory entries
are), and the root node's name is the basename of the root path (as
`filepath.WalkDir` guarantees). -/
theorem scanPath_excludeNames_precede (cfg : ScanConfig) (root : String)
    (t : DirTree) (cs : List Candidate)
    (hclean : cleanTree t = true)
    (hroot : baseName root = t.name)
    (h : scanPathModel cfg root t = .ok cs)
    (n : String) (hn : n ∈ cfg.excludeNames) :
    ∀ c ∈ cs, baseName c.path ≠ n := by
  intro c hc heq
  unfold scanPathModel at h
  split_ifs at h with hexc
  · obtain rfl : ([] : List Candidate) = cs := Except.ok.inj h
    cases hc
  · have := (visitNode_names cfg root 0 t cs hclean hroot h c hc).2
    exact this (heq ▸ hn)

set_option maxRecDepth 8000 in
/-- Witness for `scanPath_excludeNames_precede`: with `vendor` both included
and excluded, the scan of a root holding `vendor` and `node_modules` reports
only `node_modules`; no reported candidate has basename `vendor`. -/
theorem scanPath_excludeNames_precede_witness :
    (cleanTree (.node "r" false none 0
        [.node "vendor" false none 0 [], .node "node_modules" false none 0 []]) = true) ∧
    (baseName "/r" = "r") ∧
    (scanPathModel ⟨["vendor", "node_modules"], ["vendor"], [], 0, false⟩ "/r"
        (.node "r" false none 0
          [.node "vendor" false none 0 [], .node "node_modules" false none 0 []]) =
      .ok [⟨"/r/node_modules", 0, includeReason "node_modules", 0⟩]) ∧
    ("vendor" ∈ (["vendor"] : List String)) ∧
    (∀ c ∈ [(⟨"/r/node_modules", 0, includeReason "node_modules", 0⟩ : Candidate)],
        baseName c.path ≠ "vendor") :=
  ⟨by decide, by decide, rfl, by decide,
    scanPath_excludeNames_precede
      ⟨["vendor", "node_modules"], ["vendor"], [], 0, false⟩ "/r"
      (.node "r" false none 0
        [.node "vendor" false none 0 [], .node "node_modules" false none 0 []])
      _ (by decide) (by decide) rfl "vendor" (by decide)⟩

/-- `filepath.Join` of a root with a chain of path components. -/
def joinAll (root : String) (comps : List String) : String :=
  comps.foldl (fun p n => p ++ "/" ++ n) root

mutual
/-- Invariant of the walk for the depth bound: a candidate emitted while
visiting a node `levels` components below the root lies at most
`maxDepth - levels` further components down. -/
theorem visitNode_depth (cfg : ScanConfig) (path : String) (levels : Nat)
    (t : DirTree) (cs : List Candidate)
    (hN : 0 < cfg.maxDepth)
    (h : visitNode cfg path levels t = .ok cs) :
    ∀ c ∈ cs, ∃ comps : List String, c.path = joinAll path comps ∧
      (levels : Int) + comps.length ≤ cfg.maxDepth := by
  match t with
  | .node dirName isSym (some .permission) mtime children =>
    rw [visitNode_eq_perm] at h
    obtain rfl : ([] : List Candidate) = cs := Except.ok.inj h
    intro c hc; cases hc
  | .node dirName isSym (some .other) mtime children =>
    rw [visitNode_eq_other] at h
    cases h
  | .node dirName isSym none mtime children =>
    rw [visitNode_eq_none] at h
    split_ifs at h with h1 h2 h3 h4 h5 h6
    · obtain rfl : ([] : List Candidate) = cs := Except.ok.inj h
      intro c hc; cases hc
    · obtain rfl : ([] : List Candidate) = cs := Except.ok.inj h
      intro c hc; cases hc
    · obtain rfl : ([] : List Candidate) = cs := Except.ok.inj h
      intro c hc; cases hc
    · obtain rfl : ([] : List Candidate) = cs := Except.ok.inj h
      intro c hc; cases hc
    · obtain rfl : ([] : List Candidate) = cs := Except.ok.inj h
      intro c hc; cases hc
    · have hcs := Except.ok.inj h
      subst hcs
      intro c hc
      rw [List.mem_singleton] at hc
      subst hc
      refine ⟨[], rfl, ?_⟩
      have hlt : ¬(cfg.maxDepth ≤ ((levels - 1 : Nat) : Int)) := fun hle =>
        h1 ⟨hN, hle⟩
      simp only [List.length_nil]
      omega
    · intro c hc
      exact visitForest_depth cfg path levels children cs hN h c hc

theorem visitForest_depth (cfg : ScanConfig) (path : String) (levels : Nat)
    (ts : List DirTree) (cs : List Candidate)
    (hN : 0 < cfg.maxDepth)
    (h : visitForest cfg path levels ts = .ok cs) :
    ∀ c ∈ cs, ∃ comps : List String, c.path = joinAll path comps ∧
      (levels : Int) + comps.length ≤ cfg.maxDepth := by
  match ts with
  | [] =>
    obtain rfl : ([] : List Candidate) = cs := Except.ok.inj h
    intro c hc; cases hc
  | t :: rest =>
    have h0 : Except.bind (visitNode cfg (path ++ "/" ++ t.name) (levels + 1) t)
        (fun cs1 => Except.bind (visitForest cfg path levels rest)
          (fun rest1 => Except.ok (cs1 ++ rest1))) = Except.ok cs := h
    cases hv : visitNode cfg (path ++ "/" ++ t.name) (levels + 1) t with
    | error e =>
      rw [hv] at h0
      cases h0
    | ok cs₁ =>
      rw [hv] at h0
      cases hw : visitForest cfg path levels rest with
      | error e =>
        rw [hw] at h0
        cases h0
      | ok cs₂ =>
        rw [hw] at h0
        obtain rfl : cs₁ ++ cs₂ = cs := Except.ok.inj h0
        intro c hc
        rcases List.mem_append.mp hc with hmem | hmem
        · obtain ⟨comps, hpath, hlen⟩ :=
            visitNode_depth cfg (path ++ "/" ++ t.name) (levels + 1) t cs₁
              hN hv c hmem
          refine ⟨t.name :: comps, ?_, ?_⟩
          · exact hpath
          · simp only [List.length_cons]
            push_cast at hlen ⊢
            omega
        · exact visitForest_depth cfg path levels rest cs₂ hN hw c hmem
end

/-- Claim C7: with `maxDepth = N > 0`, no reported candidate lies deeper than `N`
path components below its scan root: every emitted candidate's path is the
root extended by at most `N` components (nodes at the code's depth `≥ N` are
pruned before the classification checks run). -/
theorem scanPath_respects_maxDepth (cfg : ScanConfig) (root : String)
    (t : DirTree) (cs : List Candidate)
    (hN : 0 < cfg.maxDepth)
    (h : scanPathModel cfg root t = .ok cs) :
    ∀ c ∈ cs, ∃ comps : List String, c.path = joinAll root comps ∧
      (comps.length : Int) ≤ cfg.maxDepth := by
  intro c hc
  unfold scanPathModel at h
  split_ifs at h with hexc
  · obtain rfl : ([] : List Candidate) = cs := Except.ok.inj h
    cases hc
  · obtain ⟨comps, hpath, hlen⟩ := visitNode_depth cfg root 0 t cs hN h c hc
    exact ⟨comps, hpath, by push_cast at hlen ⊢; omega⟩

set_option maxRecDepth 8000 in
/-- Witness for `scanPath_respects_maxDepth`: with `maxDepth = 2`, scanning a
tree whose `node_modules` child sits one component below the root and whose
`target` sits two components down, the reported candidates all lie at most 2
components below the root. -/
theorem scanPath_respects_maxDepth_witness :
    ((0 : Int) < 2) ∧
    (scanPathModel ⟨["node_modules", "target"], [], [], 2, false⟩ "/r"
        (.node "r" false none 0
          [.node "node_modules" false none 0 [],
           .node "deep" false none 0 [.node "target" false none 0 []]]) =
      .ok [⟨"/r/node_modules", 0, includeReason "node_modules", 0⟩,
           ⟨"/r/deep/target", 0, includeReason "target", 0⟩]) ∧
    (∀ c ∈ [(⟨"/r/node_modules", 0, includeReason "node_modules", 0⟩ : Candidate),
            (⟨"/r/deep/target", 0, includeReason "target", 0⟩ : Candidate)],
        ∃ comps : List String, c.path = joinAll "/r" comps ∧
          (comps.length : Int) ≤ 2) :=
  ⟨by decide, rfl,
    scanPath_respects_maxDepth ⟨["node_modules", "target"], [], [], 2, false⟩ "/r"
      (.node "r" false none 0
        [.node "node_modules" false none 0 [],
         .node "deep" false none 0 [.node "target" false none 0 []]])
      _ (by decide) rfl⟩

/-! ## `size.Calculator` — `calculateDirectorySize` and `CalculateSizes`

`calculateDirectorySize` runs `filepath.WalkDir` over one candidate subtree,
summing the byte length of every regular file; permission and not-exist
errors at an entry are skipped silently, any other error aborts the walk and
is returned alongside the sum accumulated so far (`return totalSize, err`).

`CalculateSizes` fans the candidates out to a bounded pool of workers over a
`jobs` channel of indices; each worker writes only its own results slot
`results[idx]`.  The interleaving is modelled by the list `order` of job
indices in the order they were pulled and completed; context cancellation is
modelled by the flag `canceled` (some worker observed `ctx.Done()`, so
`errgroup.Wait` returns `ctx.Err()`). -/

/-- An error passed to the size walk's callback: permission and not-exist
errors are skipped (contribute 0, walk continues); any other error aborts
the walk. -/
inductive SizeWalkErr
  | permission
  | notExist
  | other
deriving Repr, DecidableEq

/-- A node of the subtree walked by `calculateDirectorySize`: a regular file
with its byte length and a flag for a failing `d.Info()` call (such a file is
skipped), a directory (contributes 0, children are walked), or an entry whose
visit reports an error. -/
inductive SizeTree where
  | file : Int → Bool → SizeTree
  | dir : List SizeTree → SizeTree
  | errEntry : SizeWalkErr → SizeTree
deriving Repr

mutual
/-- The walk of `calculateDirectorySize` over one node: the bytes summed in
visit order and the first non-skippable error, which aborts the whole walk;
on abort the sum accumulated so far is kept (`return totalSize, err`). -/
def sizeWalk : SizeTree → Int × Option SizeWalkErr
  | .file sz infoErr => if infoErr then (0, none) else (sz, none)
  | .dir children => sizeForest children
  | .errEntry e =>
    match e with
    | .permission => (0, none)
    | .notExist => (0, none)
    | .other => (0, some .other)

def sizeForest : List SizeTree → Int × Option SizeWalkErr
  | [] => (0, none)
  | t :: ts =>
    match sizeWalk t with
    | (s, some e) => (s, some e)
    | (s, none) =>
      match sizeForest ts with
      | (s2, e2) => (s + s2, e2)
end

/-- `calculateDirectorySize(dirPath)` over a filesystem assigning a subtree
to each path: the accumulated total and the aborting error, if any. -/
def calculateDirectorySize (fs : String → SizeTree) (dirPath : String) :
    Int × Option SizeWalkErr :=
  sizeWalk (fs dirPath)

/-- The worker body for job index `idx` (CalculateSizes): compute the
subtree size — an error from `calculateDirectorySize` is logged and
otherwise ignored — and store `candidates[idx]` with `SizeBytes` replaced by
the computed sum. -/
def sizedCandidate (fs : String → SizeTree) (c : Candidate) : Candidate :=
  { c with sizeBytes := (calculateDirectorySize fs c.path).1 }

/-- Write `v` into slot `idx` of the results array (each worker owns the slot
of the job it pulled; indices on the jobs channel are always in bounds). -/
def writeSlot (res : Array Candidate) (idx : Nat) (v : Candidate) :
    Array Candidate :=
  if h : idx < res.size then res.set ⟨idx, h⟩ v else res

/-- The results array after the pool has processed the job indices in
completion order `order`: slots of processed jobs hold the sized candidate,
unprocessed slots keep Go's zero value (`make([]scan.Candidate, n)`). -/
def runWorkers (fs : String → SizeTree) (cands : Array Candidate)
    (order : List Nat) : Array Candidate :=
  order.foldl
    (fun res idx => writeSlot res idx (sizedCandidate fs (cands.getD idx default)))
    (Array.mkArray cands.size default)

/-- The cancellation error surfaced by `errgroup.Wait` (`ctx.Err()`). -/
inductive SizeCalcError
  | canceled
deriving Repr, DecidableEq

/-- `Calculator.CalculateSizes`: an empty candidate list returns immediately;
otherwise the workers run; if the context was cancelled, `g.Wait()` returns
the cancellation error and the call returns `nil, err`, discarding the
results array; on success the fully processed results array is returned. -/
def CalculateSizes (fs : String → SizeTree) (cands : Array Candidate)
    (order : List Nat) (canceled : Bool) :
    Except SizeCalcError (Array Candidate) :=
  if cands.size = 0 then .ok cands
  else if canceled then .error .canceled
  else .ok (runWorkers fs cands order)

theorem writeSlot_size (res : Array Candidate) (idx : Nat) (v : Candidate) :
    (writeSlot res idx v).size = res.size := by
  unfold writeSlot
  split
  · exact Array.size_set res _ v
  · rfl

theorem writeSlot_getD_same (res : Array Candidate) (idx : Nat) (v : Candidate)
    (h : idx < res.size) :
    (writeSlot res idx v).getD idx default = v := by
  unfold writeSlot
  rw [dif_pos h]
  have hsz : idx < (res.set ⟨idx, h⟩ v).size := by
    rw [Array.size_set]; exact h
  rw [Array.getD, dif_pos hsz]
  exact Array.get_set_eq res ⟨idx, h⟩ v

theorem writeSlot_getD_ne (res : Array Candidate) (idx j : Nat) (v : Candidate)
    (hne : j ≠ idx) :
    (writeSlot res idx v).getD j default = res.getD j default := by
  unfold writeSlot
  split
  · rename_i h
    have hsz : (res.set ⟨idx, h⟩ v).size = res.size := Array.size_set res _ v
    by_cases hj : j < res.size
    · have hj' : j < (res.set ⟨idx, h⟩ v).size := by rw [hsz]; exact hj
      rw [Array.getD, dif_pos hj', Array.getD, dif_pos hj]
      exact Array.get_set_ne res ⟨idx, h⟩ v hj (fun he => hne he.symm)
    · rw [Array.getD, dif_neg (fun hc => hj (hsz ▸ hc)), Array.getD, dif_neg hj]
  · rfl

theorem runWorkers_foldl_size (fs : String → SizeTree) (cands : Array Candidate)
    (order : List Nat) (init : Array Candidate) :
    (order.foldl
        (fun res idx =>
          writeSlot res idx (sizedCandidate fs (cands.getD idx default)))
        init).size = init.size := by
  induction order generalizing init with
  | nil => rfl
  | cons j rest ih =>
    rw [List.foldl_cons, ih, writeSlot_size]

theorem runWorkers_size (fs : String → SizeTree) (cands : Array Candidate)
    (order : List Nat) :
    (runWorkers fs cands order).size = cands.size := by
  unfold runWorkers
  rw [runWorkers_foldl_size]
  exact Array.size_mkArray _ _

theorem runWorkers_foldl_getD_not_mem (fs : String → SizeTree)
    (cands : Array Candidate) (order : List Nat) (init : Array Candidate)
    (i : Nat) (hmem : i ∉ order) :
    (order.foldl
        (fun res idx =>
          writeSlot res idx (sizedCandidate fs (cands.getD idx default)))
        init).getD i default = init.getD i default := by
  induction order generalizing init with
  | nil => rfl
  | cons j rest ih =>
    rw [List.foldl_cons,
      ih _ (fun hc => hmem (List.mem_cons_of_mem _ hc)),
      writeSlot_getD_ne _ _ _ _
        (fun he => hmem (by rw [he]; exact List.mem_cons_self _ _))]

theorem runWorkers_foldl_getD_mem (fs : String → SizeTree)
    (cands : Array Candidate) (order : List Nat) (init : Array Candidate)
    (hsz : init.size = cands.size) (i : Nat) (hi : i < cands.size)
    (hmem : i ∈ order) :
    (order.foldl
        (fun res idx =>
          writeSlot res idx (sizedCandidate fs (cands.getD idx default)))
        init).getD i default = sizedCandidate fs (cands.getD i default) := by
  induction order generalizing init with
  | nil => cases hmem
  | cons j rest ih =>
    rw [List.foldl_cons]
    by_cases hrest : i ∈ rest
    · exact ih _ (by rw [writeSlot_size, hsz]) hrest
    · have hij : i = j := by
        rcases List.mem_cons.mp hmem with h | h
        · exact h
        · exact absurd h hrest
      subst hij
      rw [runWorkers_foldl_getD_not_mem fs cands rest _ i hrest,
        writeSlot_getD_same _ _ _ (hsz ▸ hi)]

/-- Every processed slot of the results array holds its input candidate with
only `SizeBytes` replaced. -/
theorem runWorkers_getD (fs : String → SizeTree) (cands : Array Candidate)
    (order : List Nat) (i : Nat) (hi : i < cands.size) (hmem : i ∈ order) :
    (runWorkers fs cands order).getD i default =
      sizedCandidate fs (cands.getD i default) := by
  unfold runWorkers
  exact runWorkers_foldl_getD_mem fs cands order _ (Array.size_mkArray _ _)
    i hi hmem

/-! ## Theorems for C5 (cancellation discards partial results) -/

/-- Claim C5: if the context is cancelled before completion, `CalculateSizes`
returns the cancellation error and no candidate slice at all (`return nil,
err`): the error case of the result carries no partial results, never a mix
of summed and unsummed candidates. -/
theorem CalculateSizes_canceled_discards (fs : String → SizeTree)
    (cands : Array Candidate) (order : List Nat) (h : 0 < cands.size) :
    CalculateSizes fs cands order true = .error .canceled := by
  unfold CalculateSizes
  rw [if_neg (by omega)]
  rfl

/-- Witness for `CalculateSizes_canceled_discards` on a concrete candidate
array and a cancelled context. -/
theorem CalculateSizes_canceled_discards_witness :
    0 < (#[(⟨"/a/node_modules", 0, "r", 0⟩ : Candidate)] : Array Candidate).size ∧
    CalculateSizes (fun _ => .dir []) #[⟨"/a/node_modules", 0, "r", 0⟩] [0] true =
      .error .canceled :=
  ⟨by decide,
    CalculateSizes_canceled_discards (fun _ => .dir [])
      #[⟨"/a/node_modules", 0, "r", 0⟩] [0] (by decide)⟩

/-! ## Theorems for C6 (output order equals input order) -/

/-- Claim C6: for every input candidate array and every worker completion order (a
permutation of the job indices), a successful `CalculateSizes` returns a
result array of the same length with `results[i].Path = candidates[i].Path`
at every index: output order equals input order regardless of which worker
finishes first. -/
theorem CalculateSizes_order_preserved (fs : String → SizeTree)
    (cands : Array Candidate) (order : List Nat)
    (hperm : order.Perm (List.range cands.size)) :
    ∃ res : Array Candidate, CalculateSizes fs cands order false = .ok res ∧
      res.size = cands.size ∧
      ∀ i, i < cands.size →
        (res.getD i default).path = (cands.getD i default).path := by
  unfold CalculateSizes
  by_cases h0 : cands.size = 0
  · rw [if_pos h0]
    exact ⟨cands, rfl, rfl, fun i hi => rfl⟩
  · rw [if_neg h0]
    refine ⟨runWorkers fs cands order, rfl, runWorkers_size fs cands order, ?_⟩
    intro i hi
    have hmem : i ∈ order := hperm.mem_iff.mpr (List.mem_range.mpr hi)
    rw [runWorkers_getD fs cands order i hi hmem]
    rfl

/-- Witness for `CalculateSizes_order_preserved` with two candidates whose
jobs complete in reversed order. -/
theorem CalculateSizes_order_preserved_witness :
    ([1, 0].Perm (List.range
      (#[(⟨"/p/a", 0, "ra", 1⟩ : Candidate), ⟨"/p/b", 0, "rb", 2⟩] :
        Array Candidate).size)) ∧
    (∃ res : Array Candidate,
      CalculateSizes (fun _ => .dir [])
          #[⟨"/p/a", 0, "ra", 1⟩, ⟨"/p/b", 0, "rb", 2⟩] [1, 0] false = .ok res ∧
      res.size = (#[(⟨"/p/a", 0, "ra", 1⟩ : Candidate), ⟨"/p/b", 0, "rb", 2⟩] :
        Array Candidate).size ∧
      ∀ i, i < (#[(⟨"/p/a", 0, "ra", 1⟩ : Candidate), ⟨"/p/b", 0, "rb", 2⟩] :
          Array Candidate).size →
        (res.getD i default).path =
          ((#[(⟨"/p/a", 0, "ra", 1⟩ : Candidate), ⟨"/p/b", 0, "rb", 2⟩] :
            Array Candidate).getD i default).path) :=
  ⟨by decide,
    CalculateSizes_order_preserved (fun _ => .dir [])
      #[⟨"/p/a", 0, "ra", 1⟩, ⟨"/p/b", 0, "rb", 2⟩] [1, 0] (by decide)⟩

/-! ## Theorems for C9 (SizeBytes is the only mutated field) -/

/-- Claim C9: on success every result slot holds its input candidate with `Path`,
`Reason` and `NewestMTime` unchanged and only `SizeBytes` replaced, by the
sum `calculateDirectorySize` computed for that candidate's subtree. -/
theorem CalculateSizes_frame (fs : String → SizeTree)
    (cands : Array Candidate) (order : List Nat)
    (hperm : order.Perm (List.range cands.size)) :
    ∃ res : Array Candidate, CalculateSizes fs cands order false = .ok res ∧
      res.size = cands.size ∧
      ∀ i, i < cands.size →
        (res.getD i default).path = (cands.getD i default).path ∧
        (res.getD i default).reason = (cands.getD i default).reason ∧
        (res.getD i default).newestMTime = (cands.getD i default).newestMTime ∧
        (res.getD i default).sizeBytes =
          (calculateDirectorySize fs (cands.getD i default).path).1 := by
  unfold CalculateSizes
  by_cases h0 : cands.size = 0
  · rw [if_pos h0]
    exact ⟨cands, rfl, rfl, fun i hi => absurd hi (by omega)⟩
  · rw [if_neg h0]
    refine ⟨runWorkers fs cands order, rfl, runWorkers_size fs cands order, ?_⟩
    intro i hi
    have hmem : i ∈ order := hperm.mem_iff.mpr (List.mem_range.mpr hi)
    rw [runWorkers_getD fs cands order i hi hmem]
    exact ⟨rfl, rfl, rfl, rfl⟩

/-- Witness for `CalculateSizes_frame` with two candidates completing in
input order over a filesystem with one 5-byte file each. -/
theorem CalculateSizes_frame_witness :
    ([0, 1].Perm (List.range
      (#[(⟨"/p/a", 0, "ra", 1⟩ : Candidate), ⟨"/p/b", 0, "rb", 2⟩] :
        Array Candidate).size)) ∧
    (∃ res : Array Candidate,
      CalculateSizes (fun _ => .dir [.file 5 false])
          #[⟨"/p/a", 0, "ra", 1⟩, ⟨"/p/b", 0, "rb", 2⟩] [0, 1] false = .ok res ∧
      res.size = (#[(⟨"/p/a", 0, "ra", 1⟩ : Candidate), ⟨"/p/b", 0, "rb", 2⟩] :
        Array Candidate).size ∧
      ∀ i, i < (#[(⟨"/p/a", 0, "ra", 1⟩ : Candidate), ⟨"/p/b", 0, "rb", 2⟩] :
          Array Candidate).size →
        (res.getD i default).path =
          ((#[(⟨"/p/a", 0, "ra", 1⟩ : Candidate), ⟨"/p/b", 0, "rb", 2⟩] :
            Array Candidate).getD i default).path ∧
        (res.getD i default).reason =
          ((#[(⟨"/p/a", 0, "ra", 1⟩ : Candidate), ⟨"/p/b", 0, "rb", 2⟩] :
            Array Candidate).getD i default).reason ∧
        (res.getD i default).newestMTime =
          ((#[(⟨"/p/a", 0, "ra", 1⟩ : Candidate), ⟨"/p/b", 0, "rb", 2⟩] :
            Array Candidate).getD i default).newestMTime ∧
        (res.getD i default).sizeBytes =
          (calculateDirectorySize (fun _ => .dir [.file 5 false])
            ((#[(⟨"/p/a", 0, "ra", 1⟩ : Candidate), ⟨"/p/b", 0, "rb", 2⟩] :
              Array Candidate).getD i default).path).1) :=
  ⟨by decide,
    CalculateSizes_frame (fun _ => .dir [.file 5 false])
      #[⟨"/p/a", 0, "ra", 1⟩, ⟨"/p/b", 0, "rb", 2⟩] [0, 1] (by decide)⟩

/-! ## Theorems for C10 (non-permission walk errors are swallowed) -/

/-- Claim C10: when summing a candidate's subtree aborts with an error that is
neither a permission nor a not-exist error, `CalculateSizes` does not
surface it: absent cancellation the call still succeeds (`nil` error), and
that candidate's `SizeBytes` is the partial sum accumulated before the
failure (the first component `calculateDirectorySize` returned alongside the
error). -/
theorem CalculateSizes_swallows_size_errors (fs : String → SizeTree)
    (cands : Array Candidate) (order : List Nat) (i : Nat)
    (hperm : order.Perm (List.range cands.size)) (hi : i < cands.size)
    (herr : (calculateDirectorySize fs (cands.getD i default).path).2 =
      some .other) :
    ∃ res : Array Candidate, CalculateSizes fs cands order false = .ok res ∧
      (res.getD i default).sizeBytes =
        (calculateDirectorySize fs (cands.getD i default).path).1 := by
  unfold CalculateSizes
  rw [if_neg (by omega)]
  refine ⟨runWorkers fs cands order, rfl, ?_⟩
  have hmem : i ∈ order := hperm.mem_iff.mpr (List.mem_range.mpr hi)
  rw [runWorkers_getD fs cands order i hi hmem]
  rfl

/-- Witness for `CalculateSizes_swallows_size_errors`: the subtree holds a
5-byte file, then an entry failing with a non-permission, non-not-exist
error, then a 7-byte file; the walk aborts after the error, the candidate's
`SizeBytes` is the partial sum 5 (the 7-byte file was never reached), and
the call still succeeds. -/
theorem CalculateSizes_swallows_size_errors_witness :
    ([0].Perm (List.range
      (#[(⟨"/p/a", 0, "ra", 1⟩ : Candidate)] : Array Candidate).size)) ∧
    (0 < (#[(⟨"/p/a", 0, "ra", 1⟩ : Candidate)] : Array Candidate).size) ∧
    ((calculateDirectorySize
        (fun _ => .dir [.file 5 false, .errEntry .other, .file 7 false])
        ((#[(⟨"/p/a", 0, "ra", 1⟩ : Candidate)] : Array Candidate).getD 0
          default).path).2 = some .other) ∧
    ((calculateDirectorySize
        (fun _ => .dir [.file 5 false, .errEntry .other, .file 7 false])
        ((#[(⟨"/p/a", 0, "ra", 1⟩ : Candidate)] : Array Candidate).getD 0
          default).path).1 = 5) ∧
    (∃ res : Array Candidate,
      CalculateSizes
          (fun _ => .dir [.file 5 false, .errEntry .other, .file 7 false])
          #[⟨"/p/a", 0, "ra", 1⟩] [0] false = .ok res ∧
      (res.getD 0 default).sizeBytes =
        (calculateDirectorySize
          (fun _ => .dir [.file 5 false, .errEntry .other, .file 7 false])
          ((#[(⟨"/p/a", 0, "ra", 1⟩ : Candidate)] : Array Candidate).getD 0
            default).path).1) :=
  ⟨by decide, by decide, by decide, by decide,
    CalculateSizes_swallows_size_errors
      (fun _ => .dir [.file 5 false, .errEntry .other, .file 7 false])
      #[⟨"/p/a", 0, "ra", 1⟩] [0] 0 (by decide) (by decide) (by decide)⟩

end BBB
